import Mathlib

/-!
Verification of the EU Notaries Directory data-collection tool (src/main.py)
against its natural-language specification.

The development shallowly embeds the three pure cores of the program:

* the per-profile field extraction of `get_notary_details` (lines 80-137),
  with a `DetailPage` value standing for what the browser session observes
  on one profile page (element present/absent, text, link target);
* the batch coordination of `process_notaries` (lines 220-273), with the
  concurrent result queue modelled as an arbitrary permutation of the
  outcomes the dispatched workers produce;
* the merge-and-persist step of `save_to_excel` (lines 177-217), with the
  durable Excel store modelled as `Option (List Row)` (`none` = file absent)
  and the pandas frame operations (`concat`, `drop_duplicates`,
  `sort_values("index")` with NaN keys placed last, `drop("index", axis=1)`)
  embedded explicitly.  A crucial point of the embedding: the persisted
  sheet has no `index` column, so after `pd.concat` the rows loaded from
  disk carry NaN in the `index` column, which is modelled by the key type
  `Option Nat` (`none` = NaN).
-/

/-- Python `str.split()` tokeniser, accumulator form: splits on runs of
whitespace and drops empty pieces.  `acc` holds the current token reversed. -/
def splitWsAux : List Char → List Char → List String
  | [], acc => if acc.isEmpty then [] else [String.mk acc.reverse]
  | c :: cs, acc =>
    if c.isWhitespace then
      (if acc.isEmpty then [] else [String.mk acc.reverse]) ++ splitWsAux cs []
    else splitWsAux cs (c :: acc)

/-- Python `s.split()` (no separator argument): whitespace-delimited tokens,
empty tokens dropped, `"".split() = []`. -/
def splitWs (s : String) : List String :=
  splitWsAux s.data []

/-- Python `s.replace("mailto:", "")` on the character list: every
non-overlapping occurrence of the substring `mailto:` is removed, scanning
left to right.  Mirrors line 113 of src/main.py. -/
def removeMailtoAux : List Char → List Char
  | [] => []
  | 'm' :: 'a' :: 'i' :: 'l' :: 't' :: 'o' :: ':' :: rest => removeMailtoAux rest
  | c :: cs => c :: removeMailtoAux cs

/-- Python `href.replace("mailto:", "")` (line 113 of src/main.py). -/
def pythonReplaceMailto (s : String) : String :=
  String.mk (removeMailtoAux s.data)

/-- One persisted row of the durable store: the four columns written to the
Excel file (`Full Name`, `First Name`, `Email`, `Country`). -/
structure Row where
  fullName : String
  firstName : String
  email : String
  country : String
deriving DecidableEq, Repr

/-- The record dict built by `get_notary_details` (lines 119-125): the four
persisted fields plus the in-batch ordinal `index` used as a sort key. -/
structure Record where
  index : Nat
  fullName : String
  firstName : String
  email : String
  country : String
deriving DecidableEq, Repr

/-- Dropping the ordinal from a record, as `df.drop("index", axis=1)` does
column-wise (line 205 of src/main.py). -/
def Record.toRow (r : Record) : Row :=
  { fullName := r.fullName, firstName := r.firstName
    email := r.email, country := r.country }

/-- What one notary profile page offers to the extractor.
`titleAppears` is whether the title marker element shows up within the
bounded wait (line 98); `countryText` is the text of the country node when
that node exists (line 104); `emailHref` is `none` when the mail-link
element is absent, `some none` when the element exists but carries no href
attribute (Selenium then returns `None` and `.replace` raises), and
`some (some t)` when the link target is `t` (lines 112-113). -/
structure DetailPage where
  titleAppears : Bool
  countryText : Option String
  emailHref : Option (Option String)
deriving DecidableEq, Repr

/-- Country step of `get_notary_details` (lines 103-108):
element absent (`NoSuchElementException`) is caught and yields `""`;
element present yields `text.split()[-1]`, whose `IndexError` on a
token-less text escapes to the outer handler (modelled as `none`). -/
def extractCountry : Option String → Option String
  | none => some ""
  | some t => (splitWs t).getLast?

/-- Email step of `get_notary_details` (lines 111-116):
element absent is caught and yields `""`; element present but with a null
href makes `.replace` raise (modelled as `none`); otherwise every
occurrence of `mailto:` is removed from the target. -/
def extractEmail : Option (Option String) → Option String
  | none => some ""
  | some none => none
  | some (some href) => some (pythonReplaceMailto href)

/-- First-name step (line 122): `full_name.split()[0] if full_name else ""`.
A non-empty but token-less name makes `[0]` raise (modelled as `none`). -/
def firstNameOf (full_name : String) : Option String :=
  if full_name = "" then some "" else (splitWs full_name).head?

/-- The pure content of `get_notary_details` (lines 80-137): the outcome a
worker thread puts on the result queue for one profile.  `none` models the
sentinel `None` enqueued on a page timeout or any extraction exception;
`some r` models a successfully built record. -/
def get_notary_details (page : DetailPage) (full_name : String) (index : Nat) :
    Option Record :=
  if page.titleAppears then
    match extractCountry page.countryText, extractEmail page.emailHref,
        firstNameOf full_name with
    | some country, some email, some first =>
      some { index := index, fullName := full_name, firstName := first
             email := email, country := country }
    | _, _, _ => none
  else none

/-- Keep-first duplicate removal, accumulator form: `seen` is the set of
values already emitted.  This is pandas `drop_duplicates()` with its
default `keep="first"` (line 197 of src/main.py). -/
def dropDupAux {α : Type} [DecidableEq α] (seen : List α) : List α → List α
  | [] => []
  | x :: xs =>
    if x ∈ seen then dropDupAux seen xs else x :: dropDupAux (x :: seen) xs

/-- pandas `DataFrame.drop_duplicates()` over all columns, keeping the first
occurrence of each duplicated row. -/
def dropDuplicates {α : Type} [DecidableEq α] (l : List α) : List α :=
  dropDupAux [] l

/-- The `seen` accumulator of `dropDupAux` after a whole list has been
processed. -/
def seenAfter {α : Type} [DecidableEq α] (seen : List α) : List α → List α
  | [] => seen
  | x :: xs => if x ∈ seen then seenAfter seen xs else seenAfter (x :: seen) xs

/-- Select the rows whose `index` cell is an actual integer (not NaN),
together with that integer key. -/
def extractIndexed : Option Nat × Row → Option (Nat × Row)
  | (some i, r) => some (i, r)
  | (none, _) => none

/-- Whether a row's `index` cell is NaN (it came from the loaded store). -/
def hasNanKey : Option Nat × Row → Bool
  | (none, _) => true
  | (some _, _) => false

/-- pandas `df.sort_values("index")` on a frame whose `index` column holds
NaN (`none`) for the rows loaded back from the store and an integer for the
rows of the new batch: the integer-keyed rows are sorted ascending and the
NaN-keyed rows are appended after them in their original order
(`na_position="last"`, the pandas default). -/
def sortValuesByIndex (l : List (Option Nat × Row)) : List (Option Nat × Row) :=
  (List.insertionSort (fun a b : Nat × Row => a.1 ≤ b.1)
      (l.filterMap extractIndexed)).map (fun q => ((some q.1 : Option Nat), q.2))
    ++ l.filter hasNanKey

/-- The merge-and-persist step `save_to_excel` (lines 177-217) as a store
transformer.  `store = none` models an absent file.  When the file exists,
the loaded frame has only the four persisted columns, so its rows enter the
concatenated frame with a NaN (`none`) ordinal key; the new batch's rows
keep their integer ordinal.  `drop_duplicates` then compares whole rows
including that key, the frame is sorted by the key, and the key column is
dropped before writing. -/
def save_to_excel (store : Option (List Row)) (new_data : List Record) :
    Option (List Row) :=
  if new_data.isEmpty then store
  else
    let newKeyed : List (Option Nat × Row) :=
      new_data.map fun r => ((some r.index : Option Nat), r.toRow)
    let combined : List (Option Nat × Row) :=
      match store with
      | some existing =>
        dropDuplicates ((existing.map fun r => ((none : Option Nat), r)) ++ newKeyed)
      | none => newKeyed
    some ((sortValuesByIndex combined).map Prod.snd)

/-- Columns of the in-memory frame built from the new batch (the keys of the
record dict, lines 119-125). -/
def newDataColumns : List String :=
  ["index", "Full Name", "First Name", "Email", "Country"]

/-- Columns left after `df.drop("index", axis=1)` (line 205), i.e. the
columns of the persisted sheet. -/
def persistedColumns : List String :=
  newDataColumns.filter (fun c => c ≠ "index")

/-- Result of reading one listing element (lines 240-242): `failed` models an
exception while locating the `h3` or anchor (caught at line 255, the entry is
skipped); `parsed nm href` carries the display name and the anchor's href,
`none` standing for a null attribute value. -/
inductive ListingParse where
  | failed
  | parsed (name : String) (href : Option String)
deriving DecidableEq, Repr

/-- One listing element of a batch, together with the profile page its link
leads to (what the dispatched worker would observe). -/
structure ListingElement where
  parse : ListingParse
  page : DetailPage
deriving DecidableEq, Repr

/-- Whether the entry gets a worker thread (line 244: `if href:` on a parsed
entry — a null or empty href is falsy and the entry is skipped). -/
def dispatchedB (e : ListingElement) : Bool :=
  match e.parse with
  | ListingParse.parsed _ (some h) => if h = "" then false else true
  | _ => false

/-- The multiset of outcomes the dispatched workers of a batch put on the
result queue, listed in dispatch order; `i` is the enumerate counter of the
loop at line 238, which counts every listing element, skipped ones included. -/
def dispatchOutcomes : Nat → List ListingElement → List (Option Record)
  | _, [] => []
  | i, e :: es =>
    match e.parse with
    | ListingParse.parsed nm (some h) =>
      if h = "" then dispatchOutcomes (i + 1) es
      else get_notary_details e.page nm i :: dispatchOutcomes (i + 1) es
    | _ => dispatchOutcomes (i + 1) es

/-- The order in which the result queue is drained is some interleaving of
the concurrent workers' completions: any permutation of the dispatched
outcomes is a valid queue content after the join at lines 260-261. -/
abbrev ValidArrival (entries : List ListingElement) (arrival : List (Option Record)) : Prop :=
  List.Perm arrival (dispatchOutcomes 0 entries)

/-- The collection-and-persist tail of `process_notaries` (lines 263-273):
drain the queue keeping only truthy (non-`None`) outcomes, merge them into
the store when at least one was collected, and return them. -/
def process_notaries (store : Option (List Row)) (arrival : List (Option Record)) :
    List Record × Option (List Row) :=
  let details := arrival.filterMap id
  (details, if details.isEmpty then store else save_to_excel store details)

/-- `save_to_excel` with failure injection for its three fallible stages
(`pd.read_excel`, the concat/dedup/sort frame work, `df.to_excel`): the
`try` block at lines 189-213 turns any such exception into a logged
re-raise (lines 215-217), modelled by `Except.error`; the empty-batch
guard (lines 185-187) returns before the `try` block. -/
def save_to_excelE (store : Option (List Row)) (loadFails combineFails writeFails : Bool)
    (new_data : List Record) : Except String (Option (List Row)) :=
  if new_data.isEmpty then Except.ok store
  else
    match store with
    | some existing =>
      if loadFails then Except.error "read_excel raised"
      else if combineFails then Except.error "concat or sort raised"
      else if writeFails then Except.error "to_excel raised"
      else Except.ok (save_to_excel (some existing) new_data)
    | none =>
      if combineFails then Except.error "concat or sort raised"
      else if writeFails then Except.error "to_excel raised"
      else Except.ok (save_to_excel none new_data)

/-- Whether a merge outcome is a propagated failure. -/
def raisesError {ε α : Type} : Except ε α → Bool
  | Except.error _ => true
  | Except.ok _ => false

/-- Merge order predicted by the spec sentence of claim C3: concatenate
existing and new records, remove rows duplicated across the four persisted
fields, sort the combined set by each record's original in-batch ordinal
ascending, and drop the ordinal.  (This reading presumes the store still
knows the ordinal each of its rows was persisted with.) -/
def dropDupRowsAux (seen : List Row) : List Record → List Record
  | [] => []
  | r :: rs =>
    if r.toRow ∈ seen then dropDupRowsAux seen rs
    else r :: dropDupRowsAux (r.toRow :: seen) rs

/-- Spec-side merge of claim C3 (see `dropDupRowsAux`): the order the claim
says the persisted rows come out in. -/
def specOrderedMerge (existing newRecs : List Record) : List Row :=
  (List.insertionSort (fun a b : Record => a.index ≤ b.index)
      (dropDupRowsAux [] (existing ++ newRecs))).map Record.toRow

/-- Sample store row used in concrete checks (the spec scenario row). -/
def rowA : Row := { fullName := "A B", firstName := "A", email := "a@x.com", country := "X" }

/-- Second sample row used in concrete checks. -/
def rowB : Row := { fullName := "C D", firstName := "C", email := "c@y.com", country := "Y" }

/-- The record producing `rowA` at ordinal 0. -/
def recA0 : Record := { index := 0, fullName := "A B", firstName := "A", email := "a@x.com", country := "X" }

/-- The record producing `rowA` at ordinal 1. -/
def recA1 : Record := { index := 1, fullName := "A B", firstName := "A", email := "a@x.com", country := "X" }

/-- The record producing `rowB` at ordinal 1. -/
def recB1 : Record := { index := 1, fullName := "C D", firstName := "C", email := "c@y.com", country := "Y" }

/-- The record producing `rowB` at ordinal 5. -/
def recB5 : Record := { index := 5, fullName := "C D", firstName := "C", email := "c@y.com", country := "Y" }

/-- A benign profile page: title renders, country reads `France`, no mail
link. -/
def pgPlain : DetailPage := { titleAppears := true, countryText := some "France", emailHref := none }

/-- The spec's example page: country text `Paris, France`, mail link target
`mailto:jane@example.com`. -/
def pgJane : DetailPage :=
  { titleAppears := true, countryText := some "Paris, France"
    emailHref := some (some "mailto:jane@example.com") }

/-- A page whose mail-link target contains `mailto:` twice. -/
def pgDoubleMailto : DetailPage :=
  { titleAppears := true, countryText := none
    emailHref := some (some "mailto:mailto:jane@example.com") }

/-- Listing element without a detail URL (null href). -/
def elemNoUrl : ListingElement := { parse := ListingParse.parsed "No Url" none, page := pgPlain }

/-- Listing element whose h3/anchor lookup raised. -/
def elemBad : ListingElement := { parse := ListingParse.failed, page := pgPlain }

/-- Listing element pointing at the spec's example page. -/
def elemJane : ListingElement :=
  { parse := ListingParse.parsed "Jane Q. Public" (some "detail-url"), page := pgJane }

/-- Listing element whose profile page times out. -/
def elemTimeout : ListingElement :=
  { parse := ListingParse.parsed "Tim Out" (some "other-url")
    page := { titleAppears := false, countryText := none, emailHref := none } }

/-- A concrete batch: one skipped entry, one successful worker, one parse
failure, one timed-out worker. -/
def entriesW : List ListingElement := [elemNoUrl, elemJane, elemBad, elemTimeout]

/-- The record `elemJane`'s worker produces (it is dispatched at enumerate
position 1). -/
def recJane1 : Record :=
  { index := 1, fullName := "Jane Q. Public", firstName := "Jane"
    email := "jane@example.com", country := "France" }

/-- A queue drain order with the timeout sentinel overtaking the record. -/
def arrivalW : List (Option Record) := [none, some recJane1]

/-- Spec-side email normalisation for claim C5, following the spec words:
strip the `mailto:` scheme PREFIX from the link target (and only the
prefix). -/
def stripMailtoScheme (t : String) : String :=
  match t.data with
  | 'm' :: 'a' :: 'i' :: 'l' :: 't' :: 'o' :: ':' :: rest => String.mk rest
  | _ => t

theorem dropDupAux_append {α : Type} [DecidableEq α] (a b : List α) :
    ∀ seen, dropDupAux seen (a ++ b) = dropDupAux seen a ++ dropDupAux (seenAfter seen a) b := by
  induction a with
  | nil => intro seen; simp [dropDupAux, seenAfter]
  | cons x xs ih =>
    intro seen
    by_cases hx : x ∈ seen
    · simp [dropDupAux, seenAfter, hx, ih]
    · simp [dropDupAux, seenAfter, hx, ih]

theorem mem_seenAfter {α : Type} [DecidableEq α] (y : α) :
    ∀ (a seen : List α), y ∈ seenAfter seen a → y ∈ seen ∨ y ∈ a := by
  intro a
  induction a with
  | nil => intro seen h; exact Or.inl (by simpa [seenAfter] using h)
  | cons x xs ih =>
    intro seen h
    by_cases hx : x ∈ seen
    · rcases ih seen (by simpa [seenAfter, hx] using h) with h1 | h1
      · exact Or.inl h1
      · exact Or.inr (List.mem_cons_of_mem _ h1)
    · rcases ih (x :: seen) (by simpa [seenAfter, hx] using h) with h1 | h1
      · rcases List.mem_cons.mp h1 with h2 | h2
        · exact Or.inr (h2 ▸ List.mem_cons_self _ _)
        · exact Or.inl h2
      · exact Or.inr (List.mem_cons_of_mem _ h1)

theorem dropDupAux_congr {α : Type} [DecidableEq α] :
    ∀ (b s₁ s₂ : List α), (∀ y ∈ b, (y ∈ s₁ ↔ y ∈ s₂)) →
      dropDupAux s₁ b = dropDupAux s₂ b := by
  intro b
  induction b with
  | nil => intro s₁ s₂ _; rfl
  | cons y ys ih =>
    intro s₁ s₂ h
    have hy := h y (List.mem_cons_self _ _)
    by_cases h1 : y ∈ s₁
    · have h2 : y ∈ s₂ := hy.mp h1
      simp only [dropDupAux, if_pos h1, if_pos h2]
      exact ih _ _ fun z hz => h z (List.mem_cons_of_mem _ hz)
    · have h2 : y ∉ s₂ := fun hh => h1 (hy.mpr hh)
      simp only [dropDupAux, if_neg h1, if_neg h2]
      congr 1
      refine ih _ _ fun z hz => ?_
      simp only [List.mem_cons]
      exact or_congr Iff.rfl (h z (List.mem_cons_of_mem _ hz))

theorem dropDuplicates_append_disjoint {α : Type} [DecidableEq α] (a b : List α)
    (h : ∀ y ∈ b, y ∉ a) :
    dropDuplicates (a ++ b) = dropDuplicates a ++ dropDuplicates b := by
  unfold dropDuplicates
  rw [dropDupAux_append]
  congr 1
  refine dropDupAux_congr b _ _ fun y hy => ?_
  constructor
  · intro hmem
    rcases mem_seenAfter y a [] hmem with h1 | h1
    · exact h1
    · exact absurd h1 (h y hy)
  · intro hmem
    exact absurd hmem (List.not_mem_nil y)

theorem dropDupAux_map_inj {α β : Type} [DecidableEq α] [DecidableEq β]
    (f : α → β) (hf : Function.Injective f) :
    ∀ (l seen : List α), dropDupAux (seen.map f) (l.map f) = (dropDupAux seen l).map f := by
  intro l
  induction l with
  | nil => intro seen; rfl
  | cons x xs ih =>
    intro seen
    by_cases hx : x ∈ seen
    · have hfx : f x ∈ seen.map f := List.mem_map_of_mem f hx
      simp [dropDupAux, hx, hfx, ih]
    · have hfx : f x ∉ seen.map f := by
        intro hc
        rcases List.mem_map.mp hc with ⟨z, hz, hzz⟩
        exact hx ((hf hzz) ▸ hz)
      have hstep := ih (x :: seen)
      simp only [List.map_cons] at hstep
      simp [dropDupAux, hx, hfx, hstep]

theorem dropDuplicates_map_inj {α β : Type} [DecidableEq α] [DecidableEq β]
    (f : α → β) (hf : Function.Injective f) (l : List α) :
    dropDuplicates (l.map f) = (dropDuplicates l).map f := by
  unfold dropDuplicates
  exact dropDupAux_map_inj f hf l []

theorem filterMap_const_none {α β : Type} (l : List α) :
    (l.filterMap fun _ => (none : Option β)) = [] := by
  induction l with
  | nil => rfl
  | cons x xs ih => simp [List.filterMap_cons, ih]

theorem sortValuesByIndex_split (ex : List Row) (pairs : List (Nat × Row)) :
    sortValuesByIndex ((ex.map fun r => ((none : Option Nat), r))
        ++ pairs.map fun q => ((some q.1 : Option Nat), q.2)) =
      (List.insertionSort (fun a b : Nat × Row => a.1 ≤ b.1) pairs).map
          (fun q => ((some q.1 : Option Nat), q.2))
        ++ ex.map fun r => ((none : Option Nat), r) := by
  unfold sortValuesByIndex
  have h1 : ((ex.map fun r => ((none : Option Nat), r))
      ++ pairs.map fun q => ((some q.1 : Option Nat), q.2)).filterMap extractIndexed
      = pairs := by
    rw [List.filterMap_append, List.filterMap_map, List.filterMap_map]
    have c1 : (extractIndexed ∘ fun r : Row => ((none : Option Nat), r))
        = fun _ => (none : Option (Nat × Row)) := by
      funext r
      rfl
    have c2 : (extractIndexed ∘ fun q : Nat × Row => ((some q.1 : Option Nat), q.2))
        = some := by
      funext q
      rfl
    rw [c1, c2, filterMap_const_none, List.filterMap_some, List.nil_append]
  have h2 : ((ex.map fun r => ((none : Option Nat), r))
      ++ pairs.map fun q => ((some q.1 : Option Nat), q.2)).filter hasNanKey
      = ex.map fun r => ((none : Option Nat), r) := by
    rw [List.filter_append]
    have c1 : (ex.map fun r => ((none : Option Nat), r)).filter hasNanKey
        = ex.map fun r => ((none : Option Nat), r) := by
      apply List.filter_eq_self.mpr
      intro a ha
      rcases List.mem_map.mp ha with ⟨r, _, rfl⟩
      rfl
    have c2 : (pairs.map fun q => ((some q.1 : Option Nat), q.2)).filter hasNanKey
        = [] := by
      apply List.filter_eq_nil_iff.mpr
      intro a ha
      rcases List.mem_map.mp ha with ⟨q, _, rfl⟩
      simp [hasNanKey]
    rw [c1, c2, List.append_nil]
  rw [h1, h2]

theorem save_to_excel_exists_eq (ex : List Row) (nd : List Record) (h : nd ≠ []) :
    save_to_excel (some ex) nd =
      some (((List.insertionSort (fun a b : Nat × Row => a.1 ≤ b.1)
          (dropDuplicates (nd.map fun r => (r.index, r.toRow)))).map Prod.snd)
        ++ dropDuplicates ex) := by
  have hne : nd.isEmpty = false := by
    cases nd with
    | nil => exact absurd rfl h
    | cons a l => rfl
  unfold save_to_excel
  rw [hne]
  simp only [Bool.false_eq_true, if_false]
  have hdisj : ∀ y ∈ nd.map fun r => ((some r.index : Option Nat), r.toRow),
      y ∉ ex.map fun r => ((none : Option Nat), r) := by
    intro y hy hc
    rcases List.mem_map.mp hy with ⟨r, _, rfl⟩
    rcases List.mem_map.mp hc with ⟨r', _, he⟩
    exact Option.noConfusion (congrArg Prod.fst he)
  rw [dropDuplicates_append_disjoint _ _ hdisj]
  have hinj1 : Function.Injective (fun r : Row => ((none : Option Nat), r)) := by
    intro a b hab
    simp only [Prod.mk.injEq] at hab
    exact hab.2
  have hinj2 : Function.Injective (fun q : Nat × Row => ((some q.1 : Option Nat), q.2)) := by
    intro a b hab
    simp only [Prod.mk.injEq, Option.some.injEq] at hab
    exact Prod.ext hab.1 hab.2
  have hm2 : (nd.map fun r => ((some r.index : Option Nat), r.toRow))
      = ((nd.map fun r => (r.index, r.toRow)).map
          fun q => ((some q.1 : Option Nat), q.2)) := by
    rw [List.map_map]
    rfl
  rw [hm2, dropDuplicates_map_inj _ hinj1, dropDuplicates_map_inj _ hinj2,
    sortValuesByIndex_split, List.map_append, List.map_map, List.map_map]
  have hc1 : (Prod.snd ∘ fun q : Nat × Row => ((some q.1 : Option Nat), q.2))
      = (Prod.snd : Nat × Row → Row) := by
    funext q
    rfl
  have hc2 : (Prod.snd ∘ fun r : Row => ((none : Option Nat), r)) = id := by
    funext r
    rfl
  rw [hc1, hc2, List.map_id]

theorem mem_dispatchOutcomes :
    ∀ (es : List ListingElement) (n : Nat) (o : Option Record),
      o ∈ dispatchOutcomes n es →
      ∃ i e nm h, es[i]? = some e ∧ e.parse = ListingParse.parsed nm (some h)
        ∧ h ≠ "" ∧ o = get_notary_details e.page nm (n + i) := by
  intro es
  induction es with
  | nil =>
    intro n o ho
    simp [dispatchOutcomes] at ho
  | cons e es ih =>
    intro n o ho
    have step : ∀ (htail : o ∈ dispatchOutcomes (n + 1) es),
        ∃ i e' nm h, (e :: es)[i]? = some e'
          ∧ e'.parse = ListingParse.parsed nm (some h)
          ∧ h ≠ "" ∧ o = get_notary_details e'.page nm (n + i) := by
      intro htail
      rcases ih (n + 1) o htail with ⟨i, e', nm, hr, hget, hparse, hne, heq⟩
      refine ⟨i + 1, e', nm, hr, by simpa using hget, hparse, hne, ?_⟩
      rw [show n + (i + 1) = n + 1 + i by omega]
      exact heq
    cases hp : e.parse with
    | failed =>
      simp only [dispatchOutcomes, hp] at ho
      exact step ho
    | parsed nm href =>
      cases href with
      | none =>
        simp only [dispatchOutcomes, hp] at ho
        exact step ho
      | some h =>
        by_cases hh : h = ""
        · simp only [dispatchOutcomes, hp, if_pos hh] at ho
          exact step ho
        · simp only [dispatchOutcomes, hp, if_neg hh] at ho
          rcases List.mem_cons.mp ho with h1 | h1
          · exact ⟨0, e, nm, h, by simp, hp, hh, by simpa using h1⟩
          · exact step h1

theorem dispatchOutcomes_length :
    ∀ (es : List ListingElement) (n : Nat),
      (dispatchOutcomes n es).length = es.countP dispatchedB := by
  intro es
  induction es with
  | nil => intro n; rfl
  | cons e es ih =>
    intro n
    cases hp : e.parse with
    | failed => simp [dispatchOutcomes, hp, List.countP_cons, dispatchedB, ih]
    | parsed nm href =>
      cases href with
      | none => simp [dispatchOutcomes, hp, List.countP_cons, dispatchedB, ih]
      | some h =>
        by_cases hh : h = ""
        · simp [dispatchOutcomes, hp, hh, List.countP_cons, dispatchedB, ih]
        · simp [dispatchOutcomes, hp, hh, List.countP_cons, dispatchedB, ih]

theorem get_notary_details_fields (page : DetailPage) (nm : String) (i : Nat)
    (ht : page.titleAppears = true)
    (hc : ∀ t, page.countryText = some t → splitWs t ≠ [])
    (hn : nm = "" ∨ splitWs nm ≠ [])
    (he : page.emailHref ≠ some none) :
    ∃ country email first,
      extractCountry page.countryText = some country
      ∧ extractEmail page.emailHref = some email
      ∧ firstNameOf nm = some first
      ∧ get_notary_details page nm i =
          some { index := i, fullName := nm, firstName := first
                 email := email, country := country } := by
  have hcs : ∃ country, extractCountry page.countryText = some country := by
    cases hcc : page.countryText with
    | none => exact ⟨"", rfl⟩
    | some t =>
      have h1 : splitWs t ≠ [] := hc t hcc
      cases hgl : (splitWs t).getLast? with
      | none => exact absurd (List.getLast?_eq_none_iff.mp hgl) h1
      | some c => exact ⟨c, by simpa [extractCountry] using hgl⟩
  have hes : ∃ email, extractEmail page.emailHref = some email := by
    cases hee : page.emailHref with
    | none => exact ⟨"", rfl⟩
    | some oh =>
      cases oh with
      | none => exact absurd hee he
      | some href => exact ⟨pythonReplaceMailto href, rfl⟩
  have hfs : ∃ first, firstNameOf nm = some first := by
    by_cases hne : nm = ""
    · exact ⟨"", by simp [firstNameOf, hne]⟩
    · have h1 : splitWs nm ≠ [] := hn.resolve_left hne
      cases hh : (splitWs nm).head? with
      | none => exact absurd (List.head?_eq_none_iff.mp hh) h1
      | some f => exact ⟨f, by simpa [firstNameOf, hne] using hh⟩
  rcases hcs with ⟨country, hcountry⟩
  rcases hes with ⟨email, hemail⟩
  rcases hfs with ⟨first, hfirst⟩
  exact ⟨country, email, first, hcountry, hemail, hfirst,
    by simp [get_notary_details, ht, hcountry, hemail, hfirst]⟩

theorem get_notary_details_inv (page : DetailPage) (nm : String) (i : Nat)
    (r : Record) (h : get_notary_details page nm i = some r) :
    extractCountry page.countryText = some r.country
    ∧ extractEmail page.emailHref = some r.email
    ∧ firstNameOf nm = some r.firstName
    ∧ r.fullName = nm ∧ r.index = i := by
  by_cases ht : page.titleAppears = true
  · cases hcc : extractCountry page.countryText with
    | none => simp [get_notary_details, ht, hcc] at h
    | some country =>
      cases hee : extractEmail page.emailHref with
      | none => simp [get_notary_details, ht, hcc, hee] at h
      | some email =>
        cases hff : firstNameOf nm with
        | none => simp [get_notary_details, ht, hcc, hee, hff] at h
        | some first =>
          simp only [get_notary_details, ht, if_true, hcc, hee, hff,
            Option.some.injEq] at h
          subst h
          refine ⟨?_, ?_, ?_, rfl, rfl⟩
          · simp [hcc]
          · simp [hee]
          · simp [hff]
  · simp [get_notary_details, ht] at h

/-- Claim C1 (the spec asserts merge idempotence via exact-row
deduplication).  The code violates it: the persisted sheet has no `index`
column, so after `pd.concat` the re-loaded copy of a row carries NaN in
`index` while the re-merged copy carries its integer ordinal;
`drop_duplicates` therefore keeps both, and re-merging the very same
singleton batch grows the store from one row to two. -/
theorem C1_remerge_not_idempotent :
    save_to_excel none [recA0] = some [rowA]
    ∧ save_to_excel (save_to_excel none [recA0]) [recA0] = some [rowA, rowA]
    ∧ save_to_excel (save_to_excel none [recA0]) [recA0] ≠ save_to_excel none [recA0] :=
  ⟨by decide, by decide, by decide⟩

/-- Claim C2 (the spec asserts no store ever holds two rows identical across
all four persisted fields, including after the very first merge).  The code
violates it already at the first merge: when the file does not yet exist no
deduplication runs at all, so a batch holding two records that agree on all
four fields (at ordinals 0 and 1) persists both rows. -/
theorem C2_first_merge_keeps_duplicate_rows :
    save_to_excel none [recA0, recA1] = some [rowA, rowA]
    ∧ ¬ List.Nodup [rowA, rowA] :=
  ⟨by decide, by decide⟩

/-- Claim C3 as stated is false at a concrete input: a store created by
persisting a record with ordinal 0 and then merged with a batch holding
ordinal 5 comes out as the new row first and the old row last, while the
claimed ordering (every row sorted by its original in-batch ordinal) puts
the old row first.  Loaded rows cannot keep their ordinal: the ordinal
column is dropped before persisting, so they re-enter the sort with a NaN
key, which pandas places last. -/
theorem C3_counterexample :
    save_to_excel none [recA0] = some [rowA]
    ∧ save_to_excel (some [rowA]) [recB5] = some [rowB, rowA]
    ∧ specOrderedMerge [recA0] [recB5] = [rowA, rowB]
    ∧ ([rowB, rowA] : List Row) ≠ [rowA, rowB] :=
  ⟨by decide, by decide, by decide, by decide⟩

/-- Claim C3 (amended): for every merge of a non-empty batch into an
existing store, the row set written back consists of the batch's rows
(deduplicated as whole keyed records) sorted by their in-batch ordinal
ascending, followed by all previously stored rows (deduplicated among
themselves) in stored order — existing rows cannot keep their original
ordinal as sort key because the ordinal is not persisted; the ordinal field
is dropped before writing, so the persisted sheet has exactly the four
named columns and no index column. -/
theorem C3_amended_claim (existing : List Row) (new_data : List Record)
    (h : new_data ≠ []) :
    save_to_excel (some existing) new_data =
      some (((List.insertionSort (fun a b : Nat × Row => a.1 ≤ b.1)
          (dropDuplicates (new_data.map fun r => (r.index, r.toRow)))).map Prod.snd)
        ++ dropDuplicates existing)
    ∧ persistedColumns = ["Full Name", "First Name", "Email", "Country"]
    ∧ "index" ∉ persistedColumns :=
  ⟨save_to_excel_exists_eq existing new_data h, by decide, by decide⟩

/-- Witness for the amended claim C3 at a concrete store and batch. -/
theorem C3_witness :
    save_to_excel (some [rowA]) [recB5] =
      some (((List.insertionSort (fun a b : Nat × Row => a.1 ≤ b.1)
          (dropDuplicates ([recB5].map fun r => (r.index, r.toRow)))).map Prod.snd)
        ++ dropDuplicates [rowA]) :=
  (C3_amended_claim [rowA] [recB5] (by decide)).1

/-- Claim C4: for every batch and every drain order of the result queue,
the records `process_notaries` returns all come from entries that had a
truthy URL and whose extraction succeeded; the returned list is exactly
(a permutation of) the successful outcomes, so no individual failure
aborts the batch; and an entry without a URL (or whose listing row could
not be parsed) never produces a worker: the worker count equals the count
of dispatchable entries. -/
theorem C4_claim (entries : List ListingElement) (arrival : List (Option Record))
    (store : Option (List Row)) (h : ValidArrival entries arrival) :
    (∀ r ∈ (process_notaries store arrival).1,
      ∃ i e nm hr, entries[i]? = some e
        ∧ e.parse = ListingParse.parsed nm (some hr) ∧ hr ≠ ""
        ∧ get_notary_details e.page nm i = some r)
    ∧ List.Perm (process_notaries store arrival).1
        ((dispatchOutcomes 0 entries).filterMap id)
    ∧ (dispatchOutcomes 0 entries).length = entries.countP dispatchedB := by
  refine ⟨?_, ?_, dispatchOutcomes_length entries 0⟩
  · intro r hr
    have h0 : r ∈ arrival.filterMap id := hr
    have h1 : some r ∈ arrival := by
      rcases List.mem_filterMap.mp h0 with ⟨a, ha, hae⟩
      cases a with
      | none => exact absurd hae (by simp)
      | some b => exact (Option.some.inj hae) ▸ ha
    have h2 : some r ∈ dispatchOutcomes 0 entries := h.mem_iff.mp h1
    rcases mem_dispatchOutcomes entries 0 (some r) h2 with
      ⟨i, e, nm, hrr, hget, hparse, hne, heq⟩
    refine ⟨i, e, nm, hrr, hget, hparse, hne, ?_⟩
    rw [Nat.zero_add] at heq
    exact heq.symm
  · exact h.filterMap id

/-- Witness for claim C4: a batch with a URL-less entry, a successful
worker, an unparsable entry and a timed-out worker, drained out of dispatch
order. -/
theorem C4_witness :
    List.Perm (process_notaries none arrivalW).1
      ((dispatchOutcomes 0 entriesW).filterMap id) :=
  (C4_claim entriesW arrivalW none (by decide)).2.1

/-- Claim C5 as stated is false at a concrete input: the code removes every
occurrence of the substring `mailto:` from the link target, not just the
scheme prefix.  On target `mailto:mailto:jane@example.com` the code yields
`jane@example.com`, while stripping only the scheme prefix yields
`mailto:jane@example.com`. -/
theorem C5_counterexample :
    (get_notary_details pgDoubleMailto "Jane Doe" 0).map Record.email
      = some "jane@example.com"
    ∧ stripMailtoScheme "mailto:mailto:jane@example.com" = "mailto:jane@example.com"
    ∧ (some "jane@example.com" : Option String)
        ≠ some (stripMailtoScheme "mailto:mailto:jane@example.com") :=
  ⟨by decide, by decide, by decide⟩

/-- Claim C5 (amended): whenever a record is produced (title marker
appears, the country text if present has a token, the full name is empty
or has a token), a present mail link with target `href` yields the email
`href` with every occurrence of the substring `mailto:` removed — which
coincides with stripping the scheme prefix whenever `mailto:` occurs only
as a prefix — and an absent mail link yields the empty string. -/
theorem C5_amended_claim (page : DetailPage) (nm : String) (i : Nat)
    (ht : page.titleAppears = true)
    (hc : ∀ t, page.countryText = some t → splitWs t ≠ [])
    (hn : nm = "" ∨ splitWs nm ≠ []) :
    (∀ href, page.emailHref = some (some href) →
      (get_notary_details page nm i).map Record.email
        = some (pythonReplaceMailto href))
    ∧ (page.emailHref = none →
      (get_notary_details page nm i).map Record.email = some "") := by
  constructor
  · intro href hhe
    have he : page.emailHref ≠ some none := by
      rw [hhe]
      intro hcon
      exact Option.noConfusion (Option.some.inj hcon)
    rcases get_notary_details_fields page nm i ht hc hn he with
      ⟨c, e, f, hC, hE, hF, hrec⟩
    have he2 : e = pythonReplaceMailto href := by
      rw [hhe] at hE
      exact (Option.some.inj hE).symm
    rw [hrec]
    simp [he2]
  · intro hhe
    have he : page.emailHref ≠ some none := by
      rw [hhe]
      exact fun hcon => Option.noConfusion hcon
    rcases get_notary_details_fields page nm i ht hc hn he with
      ⟨c, e, f, hC, hE, hF, hrec⟩
    have he2 : e = "" := by
      rw [hhe] at hE
      exact (Option.some.inj hE).symm
    rw [hrec]
    simp [he2]

/-- Witness for the amended claim C5 at the spec's example target. -/
theorem C5_witness :
    (get_notary_details pgJane "Jane Q. Public" 0).map Record.email
      = some (pythonReplaceMailto "mailto:jane@example.com") :=
  (C5_amended_claim pgJane "Jane Q. Public" 0 rfl
    (by
      intro t htx
      have h2 : "Paris, France" = t := Option.some.inj htx
      subst h2
      decide)
    (Or.inr (by decide))).1 "mailto:jane@example.com" rfl

/-- Claim C6 as stated is false at a concrete input: on a page whose
country node is present but whose text has no whitespace-delimited token,
`text.split()[-1]` raises, the whole extraction fails, and no record is
produced — contradicting both "the extracted country equals the last
token" and "in both cases a record is still produced". -/
theorem C6_counterexample :
    (DetailPage.mk true (some "   ") none).countryText = some "   "
    ∧ get_notary_details (DetailPage.mk true (some "   ") none) "Jane Doe" 0 = none :=
  ⟨rfl, by decide⟩

/-- Claim C6 (amended): whenever the rest of the extraction can succeed
(title marker appears, full name empty or tokenised, mail link not
href-less), a present country node whose text has at least one
whitespace-delimited token yields a record whose country is the last such
token, and an absent country node yields a record whose country is the
empty string; a present node with token-less text instead fails the whole
extraction (claim C10). -/
theorem C6_amended_claim (page : DetailPage) (nm : String) (i : Nat)
    (ht : page.titleAppears = true)
    (hn : nm = "" ∨ splitWs nm ≠ [])
    (he : page.emailHref ≠ some none) :
    (∀ t, page.countryText = some t → splitWs t ≠ [] →
      (get_notary_details page nm i).isSome = true
      ∧ (get_notary_details page nm i).map Record.country = (splitWs t).getLast?)
    ∧ (page.countryText = none →
      (get_notary_details page nm i).isSome = true
      ∧ (get_notary_details page nm i).map Record.country = some "") := by
  constructor
  · intro t hct htok
    have hc : ∀ u, page.countryText = some u → splitWs u ≠ [] := by
      intro u hu
      rw [hct] at hu
      exact (Option.some.inj hu) ▸ htok
    rcases get_notary_details_fields page nm i ht hc hn he with
      ⟨c, e, f, hC, hE, hF, hrec⟩
    have hc2 : (splitWs t).getLast? = some c := by
      rw [hct] at hC
      exact hC
    rw [hrec]
    exact ⟨rfl, by simp [hc2]⟩
  · intro hct
    have hc : ∀ u, page.countryText = some u → splitWs u ≠ [] := by
      intro u hu
      rw [hct] at hu
      exact Option.noConfusion hu
    rcases get_notary_details_fields page nm i ht hc hn he with
      ⟨c, e, f, hC, hE, hF, hrec⟩
    have hc2 : c = "" := by
      rw [hct] at hC
      exact (Option.some.inj hC).symm
    rw [hrec]
    exact ⟨rfl, by simp [hc2]⟩

/-- Witness for the amended claim C6 at the spec's example text
`Paris, France`. -/
theorem C6_witness :
    (get_notary_details pgJane "Jane Q. Public" 0).map Record.country
      = (splitWs "Paris, France").getLast? :=
  ((C6_amended_claim pgJane "Jane Q. Public" 0 rfl (Or.inr (by decide))
      (by decide)).1 "Paris, France" rfl (by decide)).2

/-- Claim C7: every record the extractor produces carries as first name the
first whitespace-delimited token of the supplied full name, and the empty
string when the full name is empty.  (A non-empty, token-less full name
produces no record at all — claim C9 — so the statement covers every
produced record.) -/
theorem C7_claim (page : DetailPage) (nm : String) (i : Nat) (r : Record)
    (h : get_notary_details page nm i = some r) :
    (nm = "" → r.firstName = "")
    ∧ (∀ t ts, splitWs nm = t :: ts → r.firstName = t) := by
  rcases get_notary_details_inv page nm i r h with ⟨-, -, hF, -, -⟩
  constructor
  · intro hnm
    subst hnm
    simp [firstNameOf] at hF
    exact hF.symm
  · intro t ts hts
    have hnm : nm ≠ "" := by
      intro hcon
      rw [hcon] at hts
      exact List.noConfusion hts
    unfold firstNameOf at hF
    rw [if_neg hnm, hts] at hF
    exact (Option.some.inj hF).symm

/-- Witness for claim C7 at full name `Jane Q. Public`. -/
theorem C7_witness : recJane1.firstName = "Jane" :=
  (C7_claim pgJane "Jane Q. Public" 1 recJane1 (by decide)).2
    "Jane" ["Q.", "Public"] (by decide)

/-- Claim C8: an empty batch makes the merge a warning-only no-op leaving
the store unchanged; a failure raised while loading, combining or writing a
non-empty batch is propagated to the caller (an `error` outcome, never
swallowed into an `ok`); and with no failure the merge computes exactly
`save_to_excel`. -/
theorem C8_claim (store : Option (List Row)) (lf cf wf : Bool) (nd : List Record) :
    (nd = [] → save_to_excelE store lf cf wf nd = Except.ok store)
    ∧ (nd ≠ [] → ((store ≠ none ∧ lf = true) ∨ cf = true ∨ wf = true) →
        raisesError (save_to_excelE store lf cf wf nd) = true)
    ∧ (lf = false → cf = false → wf = false →
        save_to_excelE store lf cf wf nd = Except.ok (save_to_excel store nd)) := by
  refine ⟨?_, ?_, ?_⟩
  · intro hnd
    subst hnd
    rfl
  · intro hnd hfail
    have hne : nd.isEmpty = false := by
      cases nd with
      | nil => exact absurd rfl hnd
      | cons a l => rfl
    unfold save_to_excelE
    rw [hne]
    simp only [Bool.false_eq_true, if_false]
    cases store with
    | none =>
      rcases hfail with ⟨hs, _⟩ | hcf | hwf
      · exact absurd rfl hs
      · subst hcf
        simp [raisesError]
      · subst hwf
        by_cases h2 : cf <;> simp [raisesError, h2]
    | some ex =>
      rcases hfail with ⟨_, hlf⟩ | hcf | hwf
      · subst hlf
        simp [raisesError]
      · subst hcf
        by_cases h2 : lf <;> simp [raisesError, h2]
      · subst hwf
        by_cases h2 : lf <;> by_cases h3 : cf <;> simp [raisesError, h2, h3]
  · intro h1 h2 h3
    subst h1
    subst h2
    subst h3
    by_cases hnd : nd.isEmpty = true
    · have hnil : nd = [] := List.isEmpty_iff.mp hnd
      subst hnil
      rfl
    · have hne : nd.isEmpty = false := by
        revert hnd
        cases nd.isEmpty <;> simp
      unfold save_to_excelE
      rw [hne]
      cases store <;> simp

/-- Witness for claim C8: an injected load failure on a non-empty batch is
propagated, and the failure-free path computes the pure merge. -/
theorem C8_witness :
    raisesError (save_to_excelE (some [rowA]) true false false [recB5]) = true
    ∧ save_to_excelE (some [rowA]) false false false [recB5]
        = Except.ok (save_to_excel (some [rowA]) [recB5]) :=
  ⟨(C8_claim (some [rowA]) true false false [recB5]).2.1 (by decide)
      (Or.inl ⟨by decide, rfl⟩),
    (C8_claim (some [rowA]) false false false [recB5]).2.2 rfl rfl rfl⟩

/-- Claim C9: a non-empty, whitespace-only full name makes
`full_name.split()[0]` raise inside the record construction, so the whole
extraction fails and the sentinel failure outcome (`none`) is enqueued —
never a record with an empty first name. -/
theorem C9_claim (page : DetailPage) (i : Nat) (nm : String)
    (h1 : nm ≠ "") (h2 : splitWs nm = []) :
    get_notary_details page nm i = none := by
  have hF : firstNameOf nm = none := by
    unfold firstNameOf
    rw [if_neg h1, h2]
    rfl
  unfold get_notary_details
  by_cases ht : page.titleAppears = true
  · rw [if_pos ht]
    cases hcc : extractCountry page.countryText <;>
      cases hee : extractEmail page.emailHref <;> simp [hF]
  · rw [if_neg ht]

/-- Witness for claim C9 at the whitespace-only full name. -/
theorem C9_witness : get_notary_details pgPlain " " 0 = none :=
  C9_claim pgPlain 0 " " (by decide) (by decide)

/-- Claim C10: a present country node whose text has no whitespace-delimited
token makes `text.split()[-1]` raise; the inner handler only catches the
absent-element case, so the exception reaches the outer handler and the
whole extraction fails with no record. -/
theorem C10_claim (page : DetailPage) (nm : String) (i : Nat) (t : String)
    (hc : page.countryText = some t) (ht : splitWs t = []) :
    get_notary_details page nm i = none := by
  have hC : extractCountry page.countryText = none := by
    rw [hc]
    simp [extractCountry, ht]
  unfold get_notary_details
  by_cases hta : page.titleAppears = true
  · rw [if_pos hta, hC]
  · rw [if_neg hta]

/-- Witness for claim C10 at a present country node with empty text. -/
theorem C10_witness :
    get_notary_details (DetailPage.mk true (some "") none) "Jane Doe" 0 = none :=
  C10_claim (DetailPage.mk true (some "") none) "Jane Doe" 0 "" rfl (by decide)
